import Mathlib

/-!
Shallow embedding of the snap-ci pipeline engine (Go sources: `config/config.go`,
`types/types.go`, `executor/executor.go`, `pipeline/pipeline.go`,
`git/git.go` (cloneRepo), `storage/storage.go`).

Go maps are modelled as insertion-ordered association lists with the
overwrite-on-existing-key update `mapInsert`; iterating such a list stands for
one possible (unspecified) Go map iteration order.  External effects (process
execution, the clock, the filesystem) are passed in explicitly as oracle
functions or state records.
-/

namespace SnapCI

/-- Model of `config.Step`: a single named command of a job (`config/config.go`). -/
structure Step where
  name : String
  run : String
deriving DecidableEq, Repr

/-- Model of `config.Job`: ordered steps plus a list of dependency names (`config/config.go`). -/
structure Job where
  needs : List String
  steps : List Step
  name : String
deriving DecidableEq, Repr

/-- Model of `config.Config`: the parsed `.ci.yaml` pipeline definition (`config/config.go`).
The Go field `On []string` is modelled as `onEvents` (`on` is reserved in Lean);
the Go field `Jobs map[string]Job` is modelled as an association list. -/
structure Config where
  name : String
  onEvents : List String
  jobs : List (String × Job)
deriving DecidableEq, Repr

/-- Model of `types.StepResult` (`types/types.go`). -/
structure StepResult where
  name : String
  status : String
  logs : String
deriving DecidableEq, Repr

/-- Model of `types.JobResult` (`types/types.go`); `Steps map[string]StepResult` modelled as
an association list. -/
structure JobResult where
  status : String
  steps : List (String × StepResult)
deriving DecidableEq, Repr

/-- Go map update `m[k] = v`: replace the value at an existing key in place,
otherwise append a new entry. -/
def mapInsert {β : Type} : List (String × β) → String → β → List (String × β)
  | [], k, v => [(k, v)]
  | (k1, v1) :: rest, k, v =>
      if k1 = k then (k, v) :: rest else (k1, v1) :: mapInsert rest k v

/-- Go map read `m[k]`. -/
def mapLookup {β : Type} : List (String × β) → String → Option β
  | [], _ => none
  | (k1, v1) :: rest, k => if k1 = k then some v1 else mapLookup rest k

/-- Outcome of running one external process (`cmd.Run()` plus the captured
stdout/stderr buffers) — the environment of the step executor. -/
structure ExecOutcome where
  ok : Bool
  stdout : String
  stderr : String

/-- Model of `executor.ExecuteStep` (`executor/executor.go`): on process success it returns
the populated `StepResult` and no error; on failure it returns the ZERO-VALUE
`StepResult` (all fields empty) together with an error message. -/
def ExecuteStep (outcome : ExecOutcome) (step : Step) (workingDir : String) :
    StepResult × Option String :=
  let logs := outcome.stdout ++ outcome.stderr
  if outcome.ok then
    ({ name := step.name, status := "Success", logs := logs }, none)
  else
    ({ name := "", status := "", logs := "" },
      some ("step " ++ step.name ++ " failed, stderr: " ++ outcome.stderr.trim))

/-- The inner step loop of `pipeline.ExecutePipeline` (`pipeline/pipeline.go`
lines 22–37): run the steps in order, store each returned `StepResult` under the
step name, set status `Failure` and break on the first error.  The third
component records the names of the steps actually executed, in order. -/
def jobLoop (oracle : Step → ExecOutcome) :
    List Step → List (String × StepResult) →
      List (String × StepResult) × String × List String
  | [], acc => (acc, "Success", [])
  | step :: rest, acc =>
      let r := ExecuteStep (oracle step) step "temp_repo"
      let acc2 := mapInsert acc step.name r.1
      match r.2 with
      | some _ => (acc2, "Failure", [step.name])
      | none =>
          let rec1 := jobLoop oracle rest acc2
          (rec1.1, rec1.2.1, step.name :: rec1.2.2)

/-- One iteration of the job loop of `pipeline.ExecutePipeline`: build the
`JobResult` for a single job.  Also returns the executed step names. -/
def executeJob (oracle : Step → ExecOutcome) (job : Job) : JobResult × List String :=
  let r := jobLoop oracle job.steps []
  ({ status := r.2.1, steps := r.1 }, r.2.2)

/-- The job loop of `pipeline.ExecutePipeline` (lines 15–40): iterate the jobs
map (one possible iteration order), execute each job, store its result.  The
second component is the trace of executed (jobName, stepName) events in order. -/
def pipelineLoop (oracle : Step → ExecOutcome) :
    List (String × Job) → List (String × JobResult) →
      List (String × JobResult) × List (String × String)
  | [], acc => (acc, [])
  | (jobName, job) :: rest, acc =>
      let r := executeJob oracle job
      let acc2 := mapInsert acc jobName r.1
      let rec1 := pipelineLoop oracle rest acc2
      (rec1.1, r.2.map (fun s => (jobName, s)) ++ rec1.2)

/-- Model of `pipeline.ExecutePipeline` (`pipeline/pipeline.go`): executes every job of
the config in map iteration order and always returns a `nil` error.  The `needs`
field of the jobs is never read.  The last component is the instrumentation
trace of executed (jobName, stepName) events. -/
def ExecutePipeline (oracle : Step → ExecOutcome) (cfg : Config) :
    List (String × JobResult) × Option String × List (String × String) :=
  let r := pipelineLoop oracle cfg.jobs []
  (r.1, none, r.2)

/-- Oracle under which every external process succeeds. -/
def allOk : Step → ExecOutcome := fun _ => { ok := true, stdout := "", stderr := "" }

/-- A pipeline definition with a `needs` cycle: job `a` needs `b`, job `b` needs `a`. -/
def cyclicConfig : Config :=
  { name := "cyclic"
    onEvents := ["push"]
    jobs := [("a", { needs := ["b"], steps := [{ name := "sa", run := "cmd-a" }], name := "" }),
             ("b", { needs := ["a"], steps := [{ name := "sb", run := "cmd-b" }], name := "" })] }

/-- A pipeline definition where job `deploy` needs job `build`, with `deploy`
first in map iteration order. -/
def needsConfig : Config :=
  { name := "needs"
    onEvents := ["push"]
    jobs := [("deploy", { needs := ["build"], steps := [{ name := "d1", run := "deploy-cmd" }], name := "" }),
             ("build", { needs := [], steps := [{ name := "b1", run := "build-cmd" }], name := "" })] }

/-- A job whose three steps are (succeeding, failing, succeeding) under
`oracleFailSecond`. -/
def failMidJob : Job :=
  { needs := []
    steps := [{ name := "s1", run := "ok-1" },
              { name := "s2", run := "fail-2" },
              { name := "s3", run := "ok-3" }]
    name := "" }

/-- Oracle under which exactly the step named `s2` fails. -/
def oracleFailSecond : Step → ExecOutcome := fun s =>
  if s.name = "s2" then { ok := false, stdout := "", stderr := "boom" }
  else { ok := true, stdout := "out", stderr := "" }

/-- A job with two distinct steps sharing the same name. -/
def dupNameJob : Job :=
  { needs := []
    steps := [{ name := "build", run := "cmd-1" }, { name := "build", run := "cmd-2" }]
    name := "" }

/-- Model of `storage.RepoAuth` (`storage/storage.go`). -/
structure RepoAuth where
  repoName : String
  githubToken : String
deriving DecidableEq, Repr

/-- Split a character list at every occurrence of the separator, keeping empty
segments — the behavior of Go `strings.Split` with a one-character separator. -/
def splitCharList (c : Char) : List Char → List (List Char)
  | [] => [[]]
  | x :: xs =>
      let r := splitCharList c xs
      if x = c then [] :: r
      else
        match r with
        | [] => [[x]]
        | y :: ys => (x :: y) :: ys

/-- Go `strings.Split(s, "/")`; always returns at least one segment. -/
def goSplitSlash (s : String) : List String :=
  (splitCharList (Char.ofNat 47) s.data).map String.mk

/-- Branch resolution of `cloneRepo` (`git/git.go` lines 377–387): a
`refs/heads/<b>` ref yields branch `<b>`; a `refs/tags/...` ref is rejected;
anything else falls back to the default branch `main` with a warning. -/
def resolveBranch (fullRef : String) : Except String String :=
  let parts := goSplitSlash fullRef
  if parts.length > 2 ∧ parts[1]! = "heads" then
    Except.ok parts[2]!
  else if parts.length > 0 ∧ parts[0]! = "refs" ∧ parts.length > 2 ∧ parts[1]! = "tags" then
    Except.error ("tag ref received, not cloning: " ++ fullRef)
  else
    Except.ok "main"

/-- Owner/repo extraction of `cloneRepo` (`git/git.go` lines 392–400):
`https://github.com/owner/repo.git` becomes `owner/repo`; any other URL shape
yields the empty name (clone proceeds without stored credentials). -/
def extractRepoFullName (repoURL : String) : String :=
  if repoURL.startsWith "https://github.com/" then
    let t := repoURL.drop "https://github.com/".length
    if t.endsWith ".git" then t.dropRight ".git".length else t
  else ""

/-- Observable outcome of one `cloneRepo` call: the returned error, whether the
pre-existing `temp_repo` directory was removed, whether `git clone` was
executed (and with which branch and final URL), and whether `temp_repo` exists
afterwards. -/
structure CloneResult where
  error : Option String
  tempRepoRemoved : Bool
  cloneAttempted : Bool
  cloneBranch : String
  finalRepoURL : String
  tempRepoExists : Bool
deriving Repr

/-- Model of `cloneRepo` (`git/git.go` lines 369–438).  External state is passed in
explicitly: `tempRepoExisted` is the `os.Stat("temp_repo")` observation,
`authLookup` is `storage.GetRepoAuth` (`none` on lookup failure), and `cloneOk`
and `cloneOutput` are the exit status and combined output of the `git clone`
process.  The existing `temp_repo` is removed first; then the branch is
resolved from the ref (a tag ref aborts); then a stored token, when present,
is embedded into the HTTPS clone URL; then the clone runs. -/
def cloneRepo (tempRepoExisted : Bool) (authLookup : String → Option RepoAuth)
    (cloneOk : Bool) (cloneOutput : String) (repoURL fullRef : String) : CloneResult :=
  let removed := tempRepoExisted
  match resolveBranch fullRef with
  | Except.error e =>
      { error := some e, tempRepoRemoved := removed, cloneAttempted := false,
        cloneBranch := "", finalRepoURL := repoURL, tempRepoExists := false }
  | Except.ok branch =>
      let repoFullName := extractRepoFullName repoURL
      let auth : Option RepoAuth :=
        if repoFullName ≠ "" then authLookup repoFullName
        else some { repoName := "", githubToken := "" }
      let finalURL :=
        match auth with
        | some a =>
            if a.githubToken ≠ "" then
              if repoURL.startsWith "https://github.com/" then
                "https://oauth2:" ++ a.githubToken ++ "@" ++ repoURL.drop "https://".length
              else repoURL
            else repoURL
        | none => repoURL
      if cloneOk then
        { error := none, tempRepoRemoved := removed, cloneAttempted := true,
          cloneBranch := branch, finalRepoURL := finalURL, tempRepoExists := true }
      else
        { error := some ("git clone failed, output: " ++ cloneOutput),
          tempRepoRemoved := removed, cloneAttempted := true,
          cloneBranch := branch, finalRepoURL := finalURL, tempRepoExists := false }

/-- Model of `storage.RunMetadata` (`storage/storage.go`): the persisted run record.
`time.Time` values are modelled as natural-number timestamps. -/
structure RunMetadata where
  id : String
  config : Config
  results : List (String × JobResult)
  startTime : Nat
  endTime : Nat
  status : String
  triggeredBy : String
  repoName : String
  branch : String
  commitSHA : String
  commitMsg : String
  commitAuthor : String
deriving DecidableEq, Repr

/-- JSON values, the target of `encoding/json` marshalling.  Object fields are
kept in emission order; Go maps decode back extensionally, so structural
round-trip equality over this AST models Go deep equality. -/
inductive Json where
  | str : String → Json
  | num : Nat → Json
  | arr : List Json → Json
  | obj : List (String × Json) → Json

/-- Model of `json.Marshal` of `config.Step` (no json tags, so Go field names). -/
def encodeStep (s : Step) : Json :=
  Json.obj [("Name", Json.str s.name), ("Run", Json.str s.run)]

/-- Model of `json.Marshal` of `config.Job`. -/
def encodeJob (j : Job) : Json :=
  Json.obj [("Needs", Json.arr (j.needs.map Json.str)),
            ("Steps", Json.arr (j.steps.map encodeStep)),
            ("Name", Json.str j.name)]

/-- Model of `json.Marshal` of `config.Config`. -/
def encodeConfig (c : Config) : Json :=
  Json.obj [("Name", Json.str c.name),
            ("On", Json.arr (c.onEvents.map Json.str)),
            ("Jobs", Json.obj (c.jobs.map (fun p => (p.1, encodeJob p.2))))]

/-- Model of `json.Marshal` of `types.StepResult` (json tags `name`, `status`, `logs`). -/
def encodeStepResult (r : StepResult) : Json :=
  Json.obj [("name", Json.str r.name), ("status", Json.str r.status),
            ("logs", Json.str r.logs)]

/-- Model of `json.Marshal` of `types.JobResult` (json tags `status`, `steps`). -/
def encodeJobResult (r : JobResult) : Json :=
  Json.obj [("status", Json.str r.status),
            ("steps", Json.obj (r.steps.map (fun p => (p.1, encodeStepResult p.2))))]

/-- Model of `json.Marshal` of `storage.RunMetadata` (json tags as in `storage.go`). -/
def encodeRunMetadata (m : RunMetadata) : Json :=
  Json.obj [("id", Json.str m.id),
            ("config", encodeConfig m.config),
            ("results", Json.obj (m.results.map (fun p => (p.1, encodeJobResult p.2)))),
            ("start_time", Json.num m.startTime),
            ("end_time", Json.num m.endTime),
            ("status", Json.str m.status),
            ("triggered_by", Json.str m.triggeredBy),
            ("repo_name", Json.str m.repoName),
            ("branch", Json.str m.branch),
            ("commit_sha", Json.str m.commitSHA),
            ("commit_msg", Json.str m.commitMsg),
            ("commit_author", Json.str m.commitAuthor)]

/-- Model of `json.Unmarshal` into a Go string. -/
def decodeString : Json → Option String
  | Json.str s => some s
  | _ => none

/-- Model of `json.Unmarshal` into a timestamp. -/
def decodeNat : Json → Option Nat
  | Json.num n => some n
  | _ => none

/-- Element-wise decoding of a JSON array body. -/
def decodeList {α : Type} (f : Json → Option α) : List Json → Option (List α)
  | [] => some []
  | j :: rest =>
      match f j with
      | none => none
      | some a =>
          match decodeList f rest with
          | none => none
          | some tail => some (a :: tail)

/-- Model of `json.Unmarshal` into a Go slice. -/
def decodeArr {α : Type} (f : Json → Option α) : Json → Option (List α)
  | Json.arr xs => decodeList f xs
  | _ => none

/-- Element-wise decoding of a JSON object body into map entries. -/
def decodePairs {β : Type} (f : Json → Option β) :
    List (String × Json) → Option (List (String × β))
  | [] => some []
  | (k, j) :: rest =>
      match f j with
      | none => none
      | some b =>
          match decodePairs f rest with
          | none => none
          | some tail => some ((k, b) :: tail)

/-- Model of `json.Unmarshal` into a Go `map[string]T`. -/
def decodeMapJ {β : Type} (f : Json → Option β) : Json → Option (List (String × β))
  | Json.obj fields => decodePairs f fields
  | _ => none

/-- Model of `json.Unmarshal` into `config.Step`. -/
def decodeStep (j : Json) : Option Step :=
  match j with
  | Json.obj fields =>
      match mapLookup fields "Name", mapLookup fields "Run" with
      | some (Json.str n), some (Json.str r) => some { name := n, run := r }
      | _, _ => none
  | _ => none

/-- Model of `json.Unmarshal` into `config.Job`. -/
def decodeJob (j : Json) : Option Job :=
  match j with
  | Json.obj fields =>
      match mapLookup fields "Needs", mapLookup fields "Steps", mapLookup fields "Name" with
      | some jn, some js, some jname =>
          match decodeArr decodeString jn, decodeArr decodeStep js, decodeString jname with
          | some ns, some sts, some nm => some { needs := ns, steps := sts, name := nm }
          | _, _, _ => none
      | _, _, _ => none
  | _ => none

/-- Model of `json.Unmarshal` into `config.Config`. -/
def decodeConfig (j : Json) : Option Config :=
  match j with
  | Json.obj fields =>
      match mapLookup fields "Name", mapLookup fields "On", mapLookup fields "Jobs" with
      | some jn, some jo, some jj =>
          match decodeString jn, decodeArr decodeString jo, decodeMapJ decodeJob jj with
          | some nm, some evs, some jbs =>
              some { name := nm, onEvents := evs, jobs := jbs }
          | _, _, _ => none
      | _, _, _ => none
  | _ => none

/-- Model of `json.Unmarshal` into `types.StepResult`. -/
def decodeStepResult (j : Json) : Option StepResult :=
  match j with
  | Json.obj fields =>
      match mapLookup fields "name", mapLookup fields "status", mapLookup fields "logs" with
      | some (Json.str n), some (Json.str st), some (Json.str lg) =>
          some { name := n, status := st, logs := lg }
      | _, _, _ => none
  | _ => none

/-- Model of `json.Unmarshal` into `types.JobResult`. -/
def decodeJobResult (j : Json) : Option JobResult :=
  match j with
  | Json.obj fields =>
      match mapLookup fields "status", mapLookup fields "steps" with
      | some jst, some jsteps =>
          match decodeString jst, decodeMapJ decodeStepResult jsteps with
          | some st, some steps => some { status := st, steps := steps }
          | _, _ => none
      | _, _ => none
  | _ => none

/-- Read a string-valued object field, as `json.Unmarshal` does. -/
def getStrField (fields : List (String × Json)) (k : String) : Option String :=
  (mapLookup fields k).bind decodeString

/-- Read a timestamp-valued object field. -/
def getNatField (fields : List (String × Json)) (k : String) : Option Nat :=
  (mapLookup fields k).bind decodeNat

/-- The seven plain-string fields of `storage.RunMetadata`, grouped so that the
decoder stays small. -/
structure RunTrigMeta where
  status : String
  triggeredBy : String
  repoName : String
  branch : String
  commitSHA : String
  commitMsg : String
  commitAuthor : String

/-- Decode the string fields of a `storage.RunMetadata` object. -/
def decodeRunTrigMeta (fields : List (String × Json)) : Option RunTrigMeta :=
  match getStrField fields "status", getStrField fields "triggered_by",
        getStrField fields "repo_name", getStrField fields "branch" with
  | some status, some tb, some rn, some br =>
      match getStrField fields "commit_sha", getStrField fields "commit_msg",
            getStrField fields "commit_author" with
      | some sha, some msg, some au =>
          some { status := status, triggeredBy := tb, repoName := rn, branch := br,
                 commitSHA := sha, commitMsg := msg, commitAuthor := au }
      | _, _, _ => none
  | _, _, _, _ => none

/-- Model of `json.Unmarshal` into `storage.RunMetadata`. -/
def decodeRunMetadata (j : Json) : Option RunMetadata :=
  match j with
  | Json.obj fields =>
      match getStrField fields "id",
            (mapLookup fields "config").bind decodeConfig,
            (mapLookup fields "results").bind (decodeMapJ decodeJobResult),
            getNatField fields "start_time", getNatField fields "end_time",
            decodeRunTrigMeta fields with
      | some id1, some cfg, some res, some st, some et, some tm =>
          some { id := id1, config := cfg, results := res, startTime := st, endTime := et,
                 status := tm.status, triggeredBy := tm.triggeredBy, repoName := tm.repoName,
                 branch := tm.branch, commitSHA := tm.commitSHA, commitMsg := tm.commitMsg,
                 commitAuthor := tm.commitAuthor }
      | _, _, _, _, _, _ => none
  | _ => none

/-- Model of `calculateOverallStatus` (`storage/storage.go`): `Failure` iff some job
result failed. -/
def calculateOverallStatus (results : List (String × JobResult)) : String :=
  if results.any (fun p => p.2.status == "Failure") then "Failure" else "Success"

/-- The durable state behind `storage.go`: whether `run_metadata` exists and
its files (name, JSON content).  JSON text serialization between `Json` values
and bytes belongs to the standard library and is treated as exact. -/
structure Store where
  dirExists : Bool
  files : List (String × Json)

/-- Model of `time.Now().Format("20060102150405")`: a digit string derived from
the timestamp. -/
def formatTimestamp (t : Nat) : String := toString t

/-- Model of `storage.StoreRun` (`storage/storage.go` lines 99–145): create the metadata
directory, derive the run id from the current time, build the `RunMetadata`
record, and write its JSON encoding to `run_<id>.json`.  The wall clock is the
explicit `now` argument (read for the id and both timestamps). -/
def StoreRun (st : Store) (now : Nat) (cfg : Config)
    (results : List (String × JobResult))
    (repoName branch commitSHA commitMsg commitAuthor triggeredBy : String) : Store :=
  let runID := formatTimestamp now
  let metadata : RunMetadata :=
    { id := runID, config := cfg, results := results,
      startTime := now, endTime := now,
      status := calculateOverallStatus results,
      repoName := repoName, branch := branch, commitSHA := commitSHA,
      commitMsg := commitMsg, commitAuthor := commitAuthor, triggeredBy := triggeredBy }
  let filename := "run_" ++ runID ++ ".json"
  { dirExists := true,
    files := mapInsert st.files filename (encodeRunMetadata metadata) }

/-- Model of `storage.GetRun` (`storage/storage.go` lines 158–178): open
`run_<id>.json` (an absent file reports the run as not found) and decode it. -/
def GetRun (st : Store) (runID : String) : Except String RunMetadata :=
  let filename := "run_" ++ runID ++ ".json"
  match mapLookup st.files filename with
  | none => Except.error ("run with ID not found: " ++ runID)
  | some j =>
      match decodeRunMetadata j with
      | none => Except.error "failed to decode metadata from JSON"
      | some md => Except.ok md

/-- The filename filter of `storage.GetRecentRuns`: a regular file named
`run_*.json` of length greater than 8. -/
def fileNameMatches (name : String) : Bool :=
  name.endsWith ".json" && decide (name.length > 8) && name.take 4 == "run_"

/-- The collection loop of `storage.GetRecentRuns`: for every matching file,
recover the run id from the filename and load it via `GetRun`, skipping
unreadable entries. -/
def collectRuns (st : Store) : List (String × Json) → List RunMetadata
  | [] => []
  | (name, _) :: rest =>
      if fileNameMatches name then
        match GetRun st ((name.drop 4).dropRight 5) with
        | Except.ok md => md :: collectRuns st rest
        | Except.error _ => collectRuns st rest
      else collectRuns st rest

/-- The ordering used by `sort.Slice` in `GetRecentRuns`:
`runs[i].StartTime.After(runs[j].StartTime)` sorts start times descending. -/
def startDescOrder (a b : RunMetadata) : Prop := b.startTime ≤ a.startTime

instance : DecidableRel startDescOrder := fun a b => Nat.decLe b.startTime a.startTime

instance : IsTotal RunMetadata startDescOrder :=
  ⟨fun a b => (Nat.le_total b.startTime a.startTime)⟩

instance : IsTrans RunMetadata startDescOrder :=
  ⟨fun _ _ _ hab hbc => Nat.le_trans hbc hab⟩

/-- Model of `storage.GetRecentRuns` (`storage/storage.go` lines 181–212): an absent
metadata directory yields the empty list and no error; otherwise collect the
readable run records, sort them by start time descending, and truncate to
`limit`. -/
def GetRecentRuns (st : Store) (limit : Nat) : List RunMetadata × Option String :=
  if st.dirExists then
    let runs := collectRuns st st.files
    let sorted := List.insertionSort startDescOrder runs
    (if sorted.length > limit then sorted.take limit else sorted, none)
  else ([], none)

end SnapCI

namespace SnapCI

/-- C1: the `needs` graph of `cyclicConfig` is cyclic (`a` needs `b` and `b`
needs `a`), yet `ExecutePipeline` returns a `nil` error and executes the steps
of both jobs: no `DependencyCycle` rejection happens before any step runs. -/
theorem cyclic_pipeline_not_rejected :
    (mapLookup cyclicConfig.jobs "a").map Job.needs = some ["b"] ∧
    (mapLookup cyclicConfig.jobs "b").map Job.needs = some ["a"] ∧
    (ExecutePipeline allOk cyclicConfig).2.1 = none ∧
    (ExecutePipeline allOk cyclicConfig).2.2 = [("a", "sa"), ("b", "sb")] := by
  decide

/-- C2: job `deploy` lists `build` in `needs`, yet under map iteration order
that visits `deploy` first, the step of `deploy` executes before any step of
`build` has run (so before `build` reached a terminal state): `needs` ordering
is not honored. -/
theorem needs_ordering_not_honored :
    (mapLookup needsConfig.jobs "deploy").map Job.needs = some ["build"] ∧
    (ExecutePipeline allOk needsConfig).2.2 = [("deploy", "d1"), ("build", "b1")] := by
  decide

/-- C3: for the job with steps (succeeding, failing, succeeding), the resulting
`JobResult` has status `Failure` and exactly two recorded step results, and the
third step never executes — but the entry recorded under the name of the failing step
is the zero-value `StepResult` (empty name, empty status), so NO recorded
`StepResult` has status `Failure`, refuting the stated iff. -/
theorem failing_step_recorded_as_zero_value :
    (executeJob oracleFailSecond failMidJob).1.status = "Failure" ∧
    ((executeJob oracleFailSecond failMidJob).1.steps).length = 2 ∧
    (executeJob oracleFailSecond failMidJob).2 = ["s1", "s2"] ∧
    mapLookup (executeJob oracleFailSecond failMidJob).1.steps "s2" =
      some { name := "", status := "", logs := "" } ∧
    (∀ p ∈ (executeJob oracleFailSecond failMidJob).1.steps,
      p.2.status ≠ "Failure") := by
  decide

/-- C4: `dupNameJob` executes two steps (both named `build`), but the recorded
step map contains a single entry — the second execution overwrote the first —
so iterating the recorded step results cannot yield the steps in the order they
ran. -/
theorem step_map_loses_execution_order :
    (executeJob allOk dupNameJob).2 = ["build", "build"] ∧
    ((executeJob allOk dupNameJob).1.steps).length = 1 := by
  decide

/-- On a tag-shaped ref, branch resolution signals the tag-rejection error. -/
theorem resolveBranch_tagRef (ref : String)
    (h2 : (goSplitSlash ref).length > 2)
    (h0 : (goSplitSlash ref)[0]! = "refs")
    (h1 : (goSplitSlash ref)[1]! = "tags") :
    resolveBranch ref = Except.error ("tag ref received, not cloning: " ++ ref) := by
  unfold resolveBranch
  rw [if_neg, if_pos]
  · exact ⟨Nat.lt_trans (by decide) h2, h0, h2, h1⟩
  · intro h
    rw [h1] at h
    exact absurd h.2 (by decide)

/-- On a ref that is neither branch-shaped nor tag-shaped, branch resolution
falls back to the default branch `main`. -/
theorem resolveBranch_fallback (ref : String)
    (hA : ¬((goSplitSlash ref).length > 2 ∧ (goSplitSlash ref)[1]! = "heads"))
    (hB : ¬((goSplitSlash ref).length > 0 ∧ (goSplitSlash ref)[0]! = "refs" ∧
            (goSplitSlash ref).length > 2 ∧ (goSplitSlash ref)[1]! = "tags")) :
    resolveBranch ref = Except.ok "main" := by
  unfold resolveBranch
  rw [if_neg hA, if_neg hB]

/-- C7: for every tag-shaped ref (`refs/tags/...`, i.e. the ref splits on `/`
into more than two parts, the first being `refs` and the second `tags`),
`cloneRepo` returns an error and never executes `git clone`. -/
theorem cloneRepo_rejects_tag_ref (te : Bool) (authLookup : String → Option RepoAuth)
    (cloneOk : Bool) (cloneOutput url ref : String)
    (h2 : (goSplitSlash ref).length > 2)
    (h0 : (goSplitSlash ref)[0]! = "refs")
    (h1 : (goSplitSlash ref)[1]! = "tags") :
    (cloneRepo te authLookup cloneOk cloneOutput url ref).error =
      some ("tag ref received, not cloning: " ++ ref) ∧
    (cloneRepo te authLookup cloneOk cloneOutput url ref).cloneAttempted = false := by
  simp [cloneRepo, resolveBranch_tagRef ref h2 h0 h1]

/-- Witness for C7: the concrete tag ref `refs/tags/v1.0` is rejected without
a clone. -/
theorem cloneRepo_rejects_tag_ref_witness :
    (cloneRepo true (fun _ => none) true "" "https://github.com/o/r.git"
        "refs/tags/v1.0").error =
      some ("tag ref received, not cloning: " ++ "refs/tags/v1.0") ∧
    (cloneRepo true (fun _ => none) true "" "https://github.com/o/r.git"
        "refs/tags/v1.0").cloneAttempted = false :=
  cloneRepo_rejects_tag_ref true (fun _ => none) true "" "https://github.com/o/r.git"
    "refs/tags/v1.0" (by decide) (by decide) (by decide)

/-- C8: for every ref that is neither branch-shaped (`refs/heads/...`) nor
tag-shaped (`refs/tags/...`), `cloneRepo` resolves the branch to the default
`main`, proceeds to execute `git clone`, and — when the clone process succeeds —
returns no error (a working tree is produced). -/
theorem cloneRepo_fallback_to_default_branch (te : Bool)
    (authLookup : String → Option RepoAuth) (cloneOutput url ref : String)
    (hA : ¬((goSplitSlash ref).length > 2 ∧ (goSplitSlash ref)[1]! = "heads"))
    (hB : ¬((goSplitSlash ref).length > 0 ∧ (goSplitSlash ref)[0]! = "refs" ∧
            (goSplitSlash ref).length > 2 ∧ (goSplitSlash ref)[1]! = "tags")) :
    (cloneRepo te authLookup true cloneOutput url ref).cloneBranch = "main" ∧
    (cloneRepo te authLookup true cloneOutput url ref).cloneAttempted = true ∧
    (cloneRepo te authLookup true cloneOutput url ref).error = none ∧
    (cloneRepo te authLookup true cloneOutput url ref).tempRepoExists = true := by
  simp [cloneRepo, resolveBranch_fallback ref hA hB]

/-- Witness for C8: the concrete unresolvable ref `weird-ref` falls back to the
default branch and the acquisition produces a working tree without error. -/
theorem cloneRepo_fallback_witness :
    (cloneRepo false (fun _ => none) true "" "https://github.com/o/r.git"
        "weird-ref").cloneBranch = "main" ∧
    (cloneRepo false (fun _ => none) true "" "https://github.com/o/r.git"
        "weird-ref").cloneAttempted = true ∧
    (cloneRepo false (fun _ => none) true "" "https://github.com/o/r.git"
        "weird-ref").error = none ∧
    (cloneRepo false (fun _ => none) true "" "https://github.com/o/r.git"
        "weird-ref").tempRepoExists = true :=
  cloneRepo_fallback_to_default_branch false (fun _ => none) ""
    "https://github.com/o/r.git" "weird-ref" (by decide) (by decide)

/-- C10: `cloneRepo` removes an existing `temp_repo` working tree before
examining the ref, so a call rejected because the ref is tag-shaped still
removed the prior working tree: on that error the filesystem is not left
unchanged. -/
theorem cloneRepo_removes_tree_before_ref_check (authLookup : String → Option RepoAuth)
    (cloneOk : Bool) (cloneOutput url ref : String)
    (h2 : (goSplitSlash ref).length > 2)
    (h0 : (goSplitSlash ref)[0]! = "refs")
    (h1 : (goSplitSlash ref)[1]! = "tags") :
    ((cloneRepo true authLookup cloneOk cloneOutput url ref).error).isSome = true ∧
    (cloneRepo true authLookup cloneOk cloneOutput url ref).tempRepoRemoved = true ∧
    (cloneRepo true authLookup cloneOk cloneOutput url ref).tempRepoExists = false := by
  simp [cloneRepo, resolveBranch_tagRef ref h2 h0 h1]

/-- Witness for C10: with `temp_repo` present and the concrete tag ref
`refs/tags/v1.0`, the call errors yet the old working tree is gone. -/
theorem cloneRepo_removes_tree_witness :
    ((cloneRepo true (fun _ => none) true "" "u" "refs/tags/v1.0").error).isSome = true ∧
    (cloneRepo true (fun _ => none) true "" "u" "refs/tags/v1.0").tempRepoRemoved = true ∧
    (cloneRepo true (fun _ => none) true "" "u" "refs/tags/v1.0").tempRepoExists = false :=
  cloneRepo_removes_tree_before_ref_check (fun _ => none) true "" "u" "refs/tags/v1.0"
    (by decide) (by decide) (by decide)

/-- Decoding a JSON string yields the string back. -/
theorem decodeString_str (s : String) : decodeString (Json.str s) = some s := rfl

/-- Decoding an element-wise encoded list yields the list back. -/
theorem decodeList_map {α : Type} (f : Json → Option α) (g : α → Json)
    (h : ∀ x : α, f (g x) = some x) :
    ∀ xs : List α, decodeList f (xs.map g) = some xs
  | [] => rfl
  | x :: xs => by
      simp [decodeList, h x, decodeList_map f g h xs]

/-- Decoding an entry-wise encoded object body yields the entries back. -/
theorem decodePairs_map {β : Type} (f : Json → Option β) (g : β → Json)
    (h : ∀ x : β, f (g x) = some x) :
    ∀ m : List (String × β), decodePairs f (m.map (fun p => (p.1, g p.2))) = some m
  | [] => rfl
  | (k, v) :: rest => by
      simp [decodePairs, h v, decodePairs_map f g h rest]

/-- Round-trip of `config.Step` through JSON. -/
theorem decodeStep_encode (s : Step) : decodeStep (encodeStep s) = some s := rfl

/-- Round-trip of `config.Job` through JSON. -/
theorem decodeJob_encode (j : Job) : decodeJob (encodeJob j) = some j := by
  simp [decodeJob, encodeJob, mapLookup, decodeArr, decodeString,
        decodeList_map decodeString Json.str decodeString_str,
        decodeList_map decodeStep encodeStep decodeStep_encode]

/-- Round-trip of `config.Config` through JSON. -/
theorem decodeConfig_encode (c : Config) : decodeConfig (encodeConfig c) = some c := by
  simp [decodeConfig, encodeConfig, mapLookup, decodeArr, decodeMapJ, decodeString,
        decodeList_map decodeString Json.str decodeString_str,
        decodePairs_map decodeJob encodeJob decodeJob_encode]

/-- Round-trip of `types.StepResult` through JSON. -/
theorem decodeStepResult_encode (r : StepResult) :
    decodeStepResult (encodeStepResult r) = some r := rfl

/-- Round-trip of `types.JobResult` through JSON. -/
theorem decodeJobResult_encode (r : JobResult) :
    decodeJobResult (encodeJobResult r) = some r := by
  simp [decodeJobResult, encodeJobResult, mapLookup, decodeMapJ, decodeString,
        decodePairs_map decodeStepResult encodeStepResult decodeStepResult_encode]

/-- Round-trip of `storage.RunMetadata` through JSON. -/
theorem decodeRunMetadata_encode (m : RunMetadata) :
    decodeRunMetadata (encodeRunMetadata m) = some m := by
  simp [decodeRunMetadata, encodeRunMetadata, decodeRunTrigMeta, getStrField,
        getNatField, mapLookup, decodeString, decodeNat,
        decodeConfig_encode, decodeMapJ,
        decodePairs_map decodeJobResult encodeJobResult decodeJobResult_encode]

/-- Looking up the key just written finds the written value. -/
theorem mapLookup_mapInsert_self {β : Type} (m : List (String × β)) (k : String) (v : β) :
    mapLookup (mapInsert m k v) k = some v := by
  induction m with
  | nil => simp [mapInsert, mapLookup]
  | cons p rest ih =>
      obtain ⟨k1, v1⟩ := p
      by_cases h : k1 = k
      · simp [mapInsert, mapLookup, h]
      · simp [mapInsert, mapLookup, h, ih]

/-- C5: storing a run with `StoreRun` and retrieving it by the identifier
derived from the same clock reading returns a record deep-equal to the record
that was stored (the full JSON round-trip through the metadata file). -/
theorem StoreRun_GetRun_roundtrip (st : Store) (now : Nat) (cfg : Config)
    (results : List (String × JobResult))
    (repoName branch commitSHA commitMsg commitAuthor triggeredBy : String) :
    GetRun (StoreRun st now cfg results repoName branch commitSHA commitMsg
        commitAuthor triggeredBy) (formatTimestamp now) =
      Except.ok { id := formatTimestamp now, config := cfg, results := results,
                  startTime := now, endTime := now,
                  status := calculateOverallStatus results,
                  repoName := repoName, branch := branch, commitSHA := commitSHA,
                  commitMsg := commitMsg, commitAuthor := commitAuthor,
                  triggeredBy := triggeredBy } := by
  simp [GetRun, StoreRun, mapLookup_mapInsert_self, decodeRunMetadata_encode]

/-- C6: `GetRecentRuns` never reports an error, returns at most `limit`
records, returns them sorted by start time in descending order, and returns
the empty list (not an error) when no runs have been stored yet (the metadata
directory does not exist). -/
theorem GetRecentRuns_spec (st : Store) (limit : Nat) :
    (GetRecentRuns st limit).2 = none ∧
    (GetRecentRuns st limit).1.length ≤ limit ∧
    List.Sorted startDescOrder (GetRecentRuns st limit).1 ∧
    (st.dirExists = false → (GetRecentRuns st limit).1 = []) := by
  by_cases h : st.dirExists = true
  · have hsorted := List.sorted_insertionSort startDescOrder (collectRuns st st.files)
    by_cases hlen : limit < (collectRuns st st.files).length
    · refine ⟨?_, ?_, ?_, ?_⟩
      · simp [GetRecentRuns, h, hlen]
      · simp [GetRecentRuns, h, hlen, List.length_take]
      · simpa [GetRecentRuns, h, hlen] using
          List.Pairwise.sublist (List.take_sublist _ _) hsorted
      · intro hfalse; rw [hfalse] at h; exact absurd h (by simp)
    · refine ⟨?_, ?_, ?_, ?_⟩
      · simp [GetRecentRuns, h, hlen]
      · simpa [GetRecentRuns, h, hlen] using Nat.le_of_not_lt hlen
      · simpa [GetRecentRuns, h, hlen] using hsorted
      · intro hfalse; rw [hfalse] at h; exact absurd h (by simp)
  · have hf : st.dirExists = false := by
      cases hd : st.dirExists
      · rfl
      · exact absurd hd h
    exact ⟨by simp [GetRecentRuns, hf], by simp [GetRecentRuns, hf],
           by simp [GetRecentRuns, hf], fun _ => by simp [GetRecentRuns, hf]⟩

/-- Witness for C6: on the fresh store (no metadata directory), listing recent
runs yields the empty list and no error. -/
theorem GetRecentRuns_witness :
    (GetRecentRuns { dirExists := false, files := [] } 2).1 = [] ∧
    (GetRecentRuns { dirExists := false, files := [] } 2).2 = none :=
  ⟨(GetRecentRuns_spec { dirExists := false, files := [] } 2).2.2.2 rfl,
   (GetRecentRuns_spec { dirExists := false, files := [] } 2).1⟩

/-- Inserting a fresh key appends the entry at the end. -/
theorem mapInsert_not_mem {β : Type} (m : List (String × β)) (k : String) (v : β)
    (h : k ∉ m.map Prod.fst) : mapInsert m k v = m ++ [(k, v)] := by
  induction m with
  | nil => rfl
  | cons p rest ih =>
      obtain ⟨k1, v1⟩ := p
      simp only [List.map_cons, List.mem_cons, not_or] at h
      have hne : k1 ≠ k := fun hh => h.1 hh.symm
      simp [mapInsert, hne, ih h.2]

/-- The job loop visits every job once: the keys of the accumulated result map
are the keys of the accumulator followed by the job names, in iteration order. -/
theorem pipelineLoop_keys (oracle : Step → ExecOutcome) :
    ∀ (jobs : List (String × Job)) (acc : List (String × JobResult)),
      (acc.map Prod.fst ++ jobs.map Prod.fst).Nodup →
      (pipelineLoop oracle jobs acc).1.map Prod.fst =
        acc.map Prod.fst ++ jobs.map Prod.fst := by
  intro jobs
  induction jobs with
  | nil => intro acc _; simp [pipelineLoop]
  | cons p rest ih =>
      obtain ⟨jobName, job⟩ := p
      intro acc h
      rw [List.map_cons, List.nodup_append] at h
      have hfresh : jobName ∉ acc.map Prod.fst :=
        fun hmem => h.2.2 hmem (List.mem_cons_self _ _)
      have hins : (mapInsert acc jobName (executeJob oracle job).1).map Prod.fst =
          acc.map Prod.fst ++ [jobName] := by
        rw [mapInsert_not_mem _ _ _ hfresh, List.map_append]; rfl
      have hnodup2 : ((mapInsert acc jobName (executeJob oracle job).1).map Prod.fst ++
          rest.map Prod.fst).Nodup := by
        rw [hins, List.append_assoc]
        simpa [List.nodup_append] using h
      have := ih (mapInsert acc jobName (executeJob oracle job).1) hnodup2
      rw [hins, List.append_assoc] at this
      simpa [pipelineLoop] using this

/-- C9: for every configuration whose job names are distinct (a Go map
invariant) and every step outcome environment, `ExecutePipeline` returns a nil
error and a result map whose keys are exactly the job names of the configuration —
step failures never abort the call or omit the entry of a job. -/
theorem ExecutePipeline_covers_all_jobs (oracle : Step → ExecOutcome) (cfg : Config)
    (h : (cfg.jobs.map Prod.fst).Nodup) :
    (ExecutePipeline oracle cfg).2.1 = none ∧
    (ExecutePipeline oracle cfg).1.map Prod.fst = cfg.jobs.map Prod.fst := by
  refine ⟨rfl, ?_⟩
  have := pipelineLoop_keys oracle cfg.jobs [] (by simpa using h)
  simpa [ExecutePipeline] using this

/-- Witness for C9: on a concrete two-job configuration in which every step
fails, the pipeline still returns no error and one result per job. -/
theorem ExecutePipeline_covers_all_jobs_witness :
    ((needsConfig.jobs.map Prod.fst).Nodup) ∧
    ((ExecutePipeline oracleFailSecond needsConfig).2.1 = none ∧
     (ExecutePipeline oracleFailSecond needsConfig).1.map Prod.fst =
       needsConfig.jobs.map Prod.fst) :=
  ⟨by decide, ExecutePipeline_covers_all_jobs oracleFailSecond needsConfig (by decide)⟩

end SnapCI
